import Mathlib

/-!
Verification of the DeepLens patch-utility repository.

The development shallowly embeds the four Python source files:

* `fix_denormalize.py`  — `safe_denormalize`, modelled on an untyped tensor
  (a shape list together with a flat data list over `ℚ`);
* `fix_notebook.py`     — the notebook patcher, modelled as a pure function
  from a notebook document to a backup/mutated pair;
* `fix_psf_radial.py`   — the strict PSF radial plotter;
* `fix_psf_radial_robust.py` — the robust PSF radial plotter with its
  three-tier fallback and Gaussian placeholder.

The external lens simulator is modelled as an abstract function producing
either a PSF or an error (assertion failure versus any other exception),
matching the `try/except AssertionError/except Exception` structure of the
source.  File writes (`save_image`, the notebook backup) are modelled by
returning records that carry exactly the data the code would write.
-/

/-! ## Tensor model for `fix_denormalize.py`

A tensor is a shape together with flat row-major data.  `safe_denormalize`
only ever combines tensors of identical shape (`mean`/`std` are built with
`zeros_like` from its own input), so elementwise `*` and `+` are modelled
by `zipWith` without broadcasting. -/

structure Tensor where
  shape : List Nat
  data : List ℚ
deriving DecidableEq

/-- Number of dimensions, `tensor.dim()`. -/
def Tensor.dim (t : Tensor) : Nat := t.shape.length

/-- `tensor.unsqueeze(0)`: prepend a batch dimension of size 1. -/
def Tensor.unsqueeze0 (t : Tensor) : Tensor := ⟨1 :: t.shape, t.data⟩

/-- `tensor.squeeze(0)`: drop dimension 0 when it has size 1. -/
def Tensor.squeeze0 (t : Tensor) : Tensor :=
  if t.shape.headD 0 = 1 then ⟨t.shape.tail, t.data⟩ else t

/-- `torch.zeros_like(tensor)`. -/
def Tensor.zerosLike (t : Tensor) : Tensor := ⟨t.shape, t.data.map (fun _ => 0)⟩

/-- Channel coordinate of flat index `i` in a row-major `[B, C, H, W]` layout:
`(i / (H * W)) % C`. -/
def chanIdx (shape : List Nat) (i : Nat) : Nat :=
  (i / (shape.getD 2 0 * shape.getD 3 0)) % shape.getD 1 0

/-- Slice assignment `t[:, ch, :, :] = v` on a 4-D tensor: every flat index
whose channel coordinate is `ch` receives `v`.  (For `ch` at or above the
channel count no index matches; Python would raise an `IndexError` there,
but the theorems below only instantiate `ch` at `0`, `1`, `2` with at least
three channels present.) -/
def Tensor.setChan (t : Tensor) (ch : Nat) (v : ℚ) : Tensor :=
  ⟨t.shape, (List.range t.data.length).map
    (fun i => if chanIdx t.shape i = ch then v else t.data.getD i 0)⟩

/-- Elementwise product of same-shape tensors. -/
def Tensor.mul (a b : Tensor) : Tensor :=
  ⟨a.shape, List.zipWith (fun x y => x * y) a.data b.data⟩

/-- Elementwise sum of same-shape tensors. -/
def Tensor.add (a b : Tensor) : Tensor :=
  ⟨a.shape, List.zipWith (fun x y => x + y) a.data b.data⟩

/-- `safe_denormalize` from `fix_denormalize.py`: add a batch dimension to a
3-D input, build `mean` and `std` from zeros by per-channel slice
assignments, compute `tensor * std + mean`, and restore the original rank. -/
def safe_denormalize (t : Tensor) : Tensor :=
  let d := t.dim
  let t4 := if d = 3 then t.unsqueeze0 else t
  let mean := (((t4.zerosLike.setChan 0 (485/1000)).setChan 1 (456/1000)).setChan 2 (406/1000))
  let std := (((t4.zerosLike.setChan 0 (229/1000)).setChan 1 (224/1000)).setChan 2 (225/1000))
  let result := (t4.mul std).add mean
  if d = 3 then result.squeeze0 else result

theorem setChan_shape (t : Tensor) (ch : Nat) (v : ℚ) :
    (t.setChan ch v).shape = t.shape := rfl

theorem mul_add_shape (a b c : Tensor) : ((a.mul b).add c).shape = a.shape := rfl

/-- Claim C5: applied to a rank-3 image tensor (three channels), the output
of `safe_denormalize` has rank 3 and the same shape; applied to a rank-4
image tensor, the output has rank 4 and the same shape. -/
theorem safe_denormalize_rank_preserved :
    (∀ (hh ww : Nat) (t : Tensor), t.shape = [3, hh, ww] →
      (safe_denormalize t).shape = t.shape ∧ (safe_denormalize t).dim = 3) ∧
    (∀ (bb hh ww : Nat) (t : Tensor), t.shape = [bb, 3, hh, ww] →
      (safe_denormalize t).shape = t.shape ∧ (safe_denormalize t).dim = 4) := by
  constructor
  · intro hh ww t hs
    have hd : t.dim = 3 := by simp [Tensor.dim, hs]
    have h1 : (safe_denormalize t).shape = t.shape := by
      simp [safe_denormalize, hd, Tensor.unsqueeze0, Tensor.squeeze0,
        Tensor.mul, Tensor.add, Tensor.setChan, Tensor.zerosLike]
    exact ⟨h1, by simp [Tensor.dim, h1, hs]⟩
  · intro bb hh ww t hs
    have hd : t.dim = 4 := by simp [Tensor.dim, hs]
    have h1 : (safe_denormalize t).shape = t.shape := by
      simp [safe_denormalize, hd, Tensor.mul, Tensor.add, Tensor.setChan,
        Tensor.zerosLike]
    exact ⟨h1, by simp [Tensor.dim, h1, hs]⟩

theorem safe_denormalize_rank_preserved_witness :
    ((⟨[3, 1, 1], [1, 2, 3]⟩ : Tensor).shape = [3, 1, 1] ∧
      (safe_denormalize ⟨[3, 1, 1], [1, 2, 3]⟩).shape = [3, 1, 1]) ∧
    ((⟨[1, 3, 1, 1], [1, 2, 3]⟩ : Tensor).shape = [1, 3, 1, 1] ∧
      (safe_denormalize ⟨[1, 3, 1, 1], [1, 2, 3]⟩).shape = [1, 3, 1, 1]) := by
  refine ⟨⟨rfl, ?_⟩, ⟨rfl, ?_⟩⟩
  · exact (safe_denormalize_rank_preserved.1 1 1 ⟨[3, 1, 1], [1, 2, 3]⟩ rfl).1
  · exact (safe_denormalize_rank_preserved.2 1 1 1 ⟨[1, 3, 1, 1], [1, 2, 3]⟩ rfl).1

/-- Claim C7: denormalizing a rank-3 image tensor directly agrees with
adding a batch dimension of size 1, denormalizing the rank-4 tensor, and
removing the batch dimension again. -/
theorem safe_denormalize_batch_consistent (hh ww : Nat) (t : Tensor)
    (hs : t.shape = [3, hh, ww]) :
    safe_denormalize t = (safe_denormalize t.unsqueeze0).squeeze0 := by
  have hd : t.dim = 3 := by simp [Tensor.dim, hs]
  have hd4 : t.unsqueeze0.dim = 4 := by simp [Tensor.dim, Tensor.unsqueeze0, hs]
  simp [safe_denormalize, hd, hd4]

theorem safe_denormalize_batch_consistent_witness :
    (⟨[3, 1, 1], [1, 2, 3]⟩ : Tensor).shape = [3, 1, 1] ∧
    safe_denormalize ⟨[3, 1, 1], [1, 2, 3]⟩ =
      (safe_denormalize (⟨[3, 1, 1], [1, 2, 3]⟩ : Tensor).unsqueeze0).squeeze0 :=
  ⟨rfl, safe_denormalize_batch_consistent 1 1 ⟨[3, 1, 1], [1, 2, 3]⟩ rfl⟩

theorem getD_range_map (g : Nat → ℚ) (n i : Nat) (h : i < n) :
    ((List.range n).map g).getD i 0 = g i := by
  have hl : i < ((List.range n).map g).length := by simpa using h
  rw [List.getD_eq_getElem _ _ hl]
  simp

theorem getD_zipWith (f : ℚ → ℚ → ℚ) (a b : List ℚ) (i : Nat)
    (ha : i < a.length) (hb : i < b.length) :
    (List.zipWith f a b).getD i 0 = f (a.getD i 0) (b.getD i 0) := by
  have hl : i < (List.zipWith f a b).length := by
    simp [List.length_zipWith]; omega
  rw [List.getD_eq_getElem _ _ hl, List.getD_eq_getElem _ _ ha,
    List.getD_eq_getElem _ _ hb, List.getElem_zipWith]

theorem setChan_data_length (t : Tensor) (ch : Nat) (v : ℚ) :
    (t.setChan ch v).data.length = t.data.length := by
  simp [Tensor.setChan]

theorem setChan_getD_ne (t : Tensor) (ch : Nat) (v : ℚ) (i : Nat)
    (hi : i < t.data.length) (hne : chanIdx t.shape i ≠ ch) :
    (t.setChan ch v).data.getD i 0 = t.data.getD i 0 := by
  unfold Tensor.setChan
  rw [getD_range_map _ _ _ hi]
  simp [hne]

/-- Claim C10: on a rank-4 tensor with more than three channels, every
entry of the output of `safe_denormalize` lying in a channel of index 3 or
greater is zero, because `mean` and `std` are built from zeros and only
channels 0, 1, 2 receive nonzero constants. -/
theorem safe_denormalize_extra_channels_zero (t : Tensor) (bb cc hh ww : Nat)
    (hs : t.shape = [bb, cc, hh, ww]) (hc : 3 < cc) (i : Nat)
    (hi : i < t.data.length) (hch : 3 ≤ chanIdx t.shape i) :
    (safe_denormalize t).data.getD i 0 = 0 := by
  have hd : t.dim = 4 := by simp [Tensor.dim, hs]
  have hsd : safe_denormalize t =
      (t.mul (((t.zerosLike.setChan 0 (229/1000)).setChan 1 (224/1000)).setChan 2 (225/1000))).add
        (((t.zerosLike.setChan 0 (485/1000)).setChan 1 (456/1000)).setChan 2 (406/1000)) := by
    simp [safe_denormalize, hd]
  have hzl : t.zerosLike.data.length = t.data.length := by simp [Tensor.zerosLike]
  have hzsh : t.zerosLike.shape = t.shape := rfl
  have hch0 : chanIdx t.shape i ≠ 0 := by omega
  have hch1 : chanIdx t.shape i ≠ 1 := by omega
  have hch2 : chanIdx t.shape i ≠ 2 := by omega
  have hstd : ∀ v0 v1 v2 : ℚ,
      ((((t.zerosLike.setChan 0 v0).setChan 1 v1).setChan 2 v2)).data.getD i 0 = 0 := by
    intro v0 v1 v2
    have l0 : i < t.zerosLike.data.length := by omega
    have l1 : i < (t.zerosLike.setChan 0 v0).data.length := by
      rw [setChan_data_length]; omega
    have l2 : i < ((t.zerosLike.setChan 0 v0).setChan 1 v1).data.length := by
      rw [setChan_data_length, setChan_data_length]; omega
    rw [setChan_getD_ne _ _ _ _ l2 (by simpa [Tensor.setChan] using hch2),
      setChan_getD_ne _ _ _ _ l1 (by simpa [Tensor.setChan] using hch1),
      setChan_getD_ne _ _ _ _ l0 (by simpa using hch0)]
    unfold Tensor.zerosLike
    have : i < (t.data.map (fun _ => (0 : ℚ))).length := by simpa using hi
    rw [List.getD_eq_getElem _ _ this]
    simp
  have hlenstd :
      ((((t.zerosLike.setChan 0 (229/1000)).setChan 1 (224/1000)).setChan 2 (225/1000))).data.length
        = t.data.length := by
    rw [setChan_data_length, setChan_data_length, setChan_data_length, hzl]
  have hlenmean :
      ((((t.zerosLike.setChan 0 (485/1000)).setChan 1 (456/1000)).setChan 2 (406/1000))).data.length
        = t.data.length := by
    rw [setChan_data_length, setChan_data_length, setChan_data_length, hzl]
  rw [hsd]
  unfold Tensor.add Tensor.mul
  rw [getD_zipWith _ _ _ _ (by simp [List.length_zipWith]; omega) (by omega),
    getD_zipWith _ _ _ _ hi (by omega)]
  rw [hstd, hstd]
  simp

theorem safe_denormalize_extra_channels_zero_witness :
    ((⟨[1, 4, 1, 1], [5, 6, 7, 8]⟩ : Tensor).shape = [1, 4, 1, 1] ∧ 3 < 4 ∧
      3 ≤ chanIdx [1, 4, 1, 1] 3) ∧
    (safe_denormalize ⟨[1, 4, 1, 1], [5, 6, 7, 8]⟩).data.getD 3 0 = 0 :=
  ⟨⟨rfl, by decide, by decide⟩,
    safe_denormalize_extra_channels_zero ⟨[1, 4, 1, 1], [5, 6, 7, 8]⟩ 1 4 1 1 rfl
      (by decide) 3 (by decide) (by decide)⟩

/-! ## Notebook patcher model for `fix_notebook.py`

A notebook is an ordered list of cells; the patcher only ever inspects a
cell's type and source lines, so a cell is modelled by those two fields.
Python's `in` test on strings and `str.replace` are implemented directly on
the character lists so that concrete cases evaluate by `decide`. -/

/-- Worker for the substring test: `pat` occurs in the scanned list iff it
is a prefix there or occurs in the tail. -/
def infixCheck (pat : List Char) : List Char → Bool
  | [] => pat.isEmpty
  | c :: rest => List.isPrefixOf pat (c :: rest) || infixCheck pat rest

/-- Substring test: Python's `pat in s`. -/
def strContains (s pat : String) : Bool := infixCheck pat.toList s.toList

/-- Fuel-indexed worker for `str.replace`: scan left to right, replacing
each non-overlapping occurrence of `pat` by `rep`.  The fuel is the length
of the scanned list, which bounds the number of steps. -/
def replaceAux (pat rep : List Char) : Nat → List Char → List Char
  | _, [] => []
  | 0, l => l
  | Nat.succ fuel, c :: rest =>
    if List.isPrefixOf pat (c :: rest) then
      rep ++ replaceAux pat rep fuel (List.drop (pat.length - 1) rest)
    else c :: replaceAux pat rep fuel rest

/-- Python's `line.replace(pat, rep)`. -/
def strReplace (s pat rep : String) : String :=
  ⟨replaceAux pat.toList rep.toList s.toList.length s.toList⟩

/-- A single quote character, used inside source-line literals. -/
def sqc : String := ⟨[Char.ofNat 39]⟩

/-- The replacement assignment line written for dataset-path lines. -/
def newPathLine : String :=
  "    DIV2K_PATH = " ++ sqc ++ "/nas1/DIV2K" ++ sqc ++ "  # Updated path\n"

/-- Per-line rewrite inside a matched cell, from the loop body of
`fix_notebook.py`: a line mentioning `DIV2K_PATH` but not the new literal
path becomes the fixed assignment; otherwise a line mentioning
`denormalize_ImageNet` has that name textually replaced; otherwise the
line passes through. -/
def fixLine (line : String) : String :=
  if strContains line "DIV2K_PATH" && ! strContains line "/nas1/DIV2K" then
    newPathLine
  else if strContains line "denormalize_ImageNet" then
    strReplace line "denormalize_ImageNet" "safe_denormalize"
  else line

structure Cell where
  cellType : String
  source : List String
deriving DecidableEq

/-- The marker whose presence selects a cell for rewriting. -/
def trainDefMarker : String := "def end2end_train"

/-- Per-cell rewrite from `fix_notebook.py`: only code cells whose joined
source contains the training-function definition have their lines
rewritten. -/
def rewriteCell (c : Cell) : Cell :=
  if c.cellType == "code" && strContains (String.join c.source) trainDefMarker then
    { c with source := c.source.map fixLine }
  else c

/-- The injected import cell. -/
def importCell : Cell :=
  ⟨"code", ["# Fix for tensor dimension issues\n",
    "from fix_denormalize import safe_denormalize, vis_sample"]⟩

/-- The injected dataset-path cell. -/
def datasetPathCell : Cell :=
  ⟨"code", ["# Update DIV2K dataset path\n",
    "DIV2K_PATH = " ++ sqc ++ "/nas1/DIV2K" ++ sqc ++ "\n",
    "os.makedirs(DIV2K_PATH, exist_ok=True)\n",
    "print(f" ++ sqc ++ "DIV2K dataset will be stored in \x7bDIV2K_PATH\x7d" ++ sqc ++ ")"]⟩

structure Notebook where
  cells : List Cell
deriving DecidableEq

/-- The whole patch run of `fix_notebook.py` as a pure function: the backup
is written from the document before any mutation; then every cell is passed
through `rewriteCell` and the two new cells are spliced in after the first
(already rewritten) cell.  The empty-cell-list case is `none`, modelling
the `IndexError` Python raises on `notebook['cells'][0]`.  The result pair
is (backup document, mutated document). -/
def patchNotebook (nb : Notebook) : Option (Notebook × Notebook) :=
  match nb.cells with
  | [] => none
  | c0 :: rest =>
    some (nb, ⟨rewriteCell c0 :: importCell :: datasetPathCell :: rest.map rewriteCell⟩)

/-- Claim C2 counterexample: when the first cell of the notebook is itself a
code cell containing the training-function definition, the mutated document's
cell 0 is the rewritten first cell, not the original first cell. -/
def nbFirstCellTrains : Notebook :=
  ⟨[⟨"code", ["def end2end_train():\n", "    x = denormalize_ImageNet(y)\n"]⟩]⟩

/-- Claim C2 is refuted at `nbFirstCellTrains`: the mutated document's cell
at position 0 differs from the original first cell. -/
theorem patchNotebook_first_cell_can_change :
    (patchNotebook nbFirstCellTrains).map (fun pr => pr.2.cells.getD 0 ⟨"", []⟩) ≠
      some (nbFirstCellTrains.cells.getD 0 ⟨"", []⟩) := by decide

/-- Claim C2, amended: for every notebook with at least one cell, the patch
run produces a backup equal to the pre-mutation document and a mutated
document with exactly 2 more cells, whose cell at position 0 is the first
original cell transformed by the same per-cell rewrite applied to every
cell (hence unchanged exactly when that rewrite leaves it unchanged, in
particular whenever it is not a code cell containing the training-function
definition). -/
theorem patchNotebook_backup_and_structure (nb : Notebook) (c0 : Cell)
    (rest : List Cell) (h : nb.cells = c0 :: rest) :
    ∃ backup mutated, patchNotebook nb = some (backup, mutated) ∧
      backup = nb ∧ mutated.cells.length = nb.cells.length + 2 ∧
      mutated.cells.getD 0 ⟨"", []⟩ = rewriteCell c0 := by
  refine ⟨nb, ⟨rewriteCell c0 :: importCell :: datasetPathCell :: rest.map rewriteCell⟩,
    ?_, rfl, ?_, rfl⟩
  · unfold patchNotebook
    rw [h]
  · simp [h]

theorem patchNotebook_backup_and_structure_witness :
    (⟨[⟨"markdown", ["hello\n"]⟩]⟩ : Notebook).cells = [⟨"markdown", ["hello\n"]⟩] ∧
    ∃ backup mutated,
      patchNotebook ⟨[⟨"markdown", ["hello\n"]⟩]⟩ = some (backup, mutated) ∧
      backup = ⟨[⟨"markdown", ["hello\n"]⟩]⟩ ∧
      mutated.cells.length = (⟨[⟨"markdown", ["hello\n"]⟩]⟩ : Notebook).cells.length + 2 ∧
      mutated.cells.getD 0 ⟨"", []⟩ = rewriteCell ⟨"markdown", ["hello\n"]⟩ :=
  ⟨rfl, patchNotebook_backup_and_structure ⟨[⟨"markdown", ["hello\n"]⟩]⟩
    ⟨"markdown", ["hello\n"]⟩ [] rfl⟩

/-- Claim C4 counterexample: a markdown cell whose concatenated source
contains the training-function definition is not rewritten at all (the code
additionally requires the cell type to be `code`), so its line mentioning
the old denormalization function keeps the old name instead of being
rewritten line by line. -/
def mdTrainCell : Cell :=
  ⟨"markdown", ["def end2end_train\n", "use denormalize_ImageNet here\n"]⟩

/-- Claim C4 is refuted at `mdTrainCell`: its concatenated source contains
the training-function definition, yet its source is not rewritten line by
line (the old denormalization name survives). -/
theorem rewriteCell_skips_markdown :
    strContains (String.join mdTrainCell.source) trainDefMarker = true ∧
    (rewriteCell mdTrainCell).source ≠ mdTrainCell.source.map fixLine := by decide

/-- Claim C4, amended: for every *code* cell whose concatenated source
contains the training-function definition, the patcher rewrites its source
line by line: a line mentioning the dataset-path variable but not the new
literal path becomes the fixed assignment to the new path; otherwise a line
mentioning the old denormalization function name has that name textually
replaced by the new helper's name; all other lines pass through unchanged. -/
theorem rewriteCell_line_by_line (c : Cell) (h1 : c.cellType = "code")
    (h2 : strContains (String.join c.source) trainDefMarker = true) :
    (rewriteCell c).source.length = c.source.length ∧
    ∀ i, i < c.source.length →
      (rewriteCell c).source.getD i "" =
        (if strContains (c.source.getD i "") "DIV2K_PATH" = true ∧
            strContains (c.source.getD i "") "/nas1/DIV2K" = false then
          newPathLine
        else if strContains (c.source.getD i "") "denormalize_ImageNet" = true then
          strReplace (c.source.getD i "") "denormalize_ImageNet" "safe_denormalize"
        else c.source.getD i "") := by
  have hcond : (c.cellType == "code" &&
      strContains (String.join c.source) trainDefMarker) = true := by
    rw [h1, h2]; rfl
  have hsrc : (rewriteCell c).source = c.source.map fixLine := by
    unfold rewriteCell
    rw [hcond]
    simp
  refine ⟨by rw [hsrc]; simp, ?_⟩
  intro i hi
  have hil : i < (c.source.map fixLine).length := by simpa using hi
  rw [hsrc, List.getD_eq_getElem _ _ hil, List.getElem_map,
    ← List.getD_eq_getElem c.source "" hi]
  unfold fixLine
  rcases hA : strContains (c.source.getD i "") "DIV2K_PATH" with _ | _ <;>
    rcases hB : strContains (c.source.getD i "") "/nas1/DIV2K" with _ | _ <;>
      simp [hA, hB]

def codeTrainCell : Cell :=
  ⟨"code", ["def end2end_train\n", "img = denormalize_ImageNet(img)\n", "y = 1\n"]⟩

theorem rewriteCell_line_by_line_witness :
    (codeTrainCell.cellType = "code" ∧
      strContains (String.join codeTrainCell.source) trainDefMarker = true) ∧
    ((rewriteCell codeTrainCell).source.length = codeTrainCell.source.length ∧
      ∀ i, i < codeTrainCell.source.length →
        (rewriteCell codeTrainCell).source.getD i "" =
          (if strContains (codeTrainCell.source.getD i "") "DIV2K_PATH" = true ∧
              strContains (codeTrainCell.source.getD i "") "/nas1/DIV2K" = false then
            newPathLine
          else if strContains (codeTrainCell.source.getD i "") "denormalize_ImageNet" = true then
            strReplace (codeTrainCell.source.getD i "") "denormalize_ImageNet" "safe_denormalize"
          else codeTrainCell.source.getD i "")) :=
  ⟨⟨rfl, by decide⟩, rewriteCell_line_by_line codeTrainCell rfl (by decide)⟩

/-! ## PSF model shared by `fix_psf_radial.py` and `fix_psf_radial_robust.py`

A PSF is a channels × rows × columns array of reals.  `psf.max()` /
`psf.min()` flatten the array, so minimum and maximum are taken over the
flattened entry list via a fold. -/

noncomputable section

/-- A PSF: list of channels, each a list of rows of real entries. -/
abbrev Psf : Type := List (List (List ℝ))

/-- All entries of a PSF in one flat list. -/
def flatPsf (p : Psf) : List ℝ := p.flatten.flatten

/-- Elementwise map over a PSF. -/
def pmap (f : ℝ → ℝ) (p : Psf) : Psf :=
  p.map (fun ch => ch.map (fun row => row.map f))

/-- Maximum of a nonempty list of reals (`0` on the empty list, which the
code never produces): `tensor.max()`. -/
def lmax : List ℝ → ℝ
  | [] => 0
  | x :: xs => List.foldr max x xs

/-- Minimum of a nonempty list of reals: `tensor.min()`. -/
def lmin : List ℝ → ℝ
  | [] => 0
  | x :: xs => List.foldr min x xs

/-- `psf.max()`. -/
def pmax (p : Psf) : ℝ := lmax (flatPsf p)

/-- `psf.min()`. -/
def pmin (p : Psf) : ℝ := lmin (flatPsf p)

/-- The log-scale step shared verbatim by both plotters:
`psf = log(psf + EPSILON); psf = (psf - psf.min()) / (psf.max() - psf.min())`. -/
def logScaleStep (eps : ℝ) (p : Psf) : Psf :=
  let q := pmap (fun v => Real.log (v + eps)) p
  pmap (fun v => (v - pmin q) / (pmax q - pmin q)) q

/-- `EPSILON` is imported by both plotters from `deeplens.optics.basics`.
Modelled from the spec: the spec describes it only as "a small constant
sourced from the lens optics library"; the library itself is not part of
this repository, so it is modelled as the small positive constant `1e-9`.
No theorem below depends on its numeric value. -/
def EPSILON : ℝ := 1 / 1000000000

/-- Per-PSF post-processing shared by both plotters: divide by the PSF's own
maximum, then optionally apply the log-scale step. -/
def postProcess (ls : Bool) (eps : ℝ) (p : Psf) : Psf :=
  let q := pmap (fun v => v / pmax p) p
  if ls then logScaleStep eps q else q

/-- Errors the modelled lens can raise: Python's `AssertionError` versus any
other exception (carrying its message). -/
inductive LensErr where
  | assertionError : LensErr
  | otherError : String → LensErr
deriving DecidableEq

/-- The external lens simulator, as an abstract capability: field point,
kernel size, recenter flag, and sample count produce either an RGB PSF or
an exception. -/
structure FieldPoint where
  x : ℝ
  y : ℝ
  z : ℝ

def Lens : Type := FieldPoint → Nat → Bool → Nat → Except LensErr Psf

/-- `torch.linspace(a, b, n)`: `n` evenly spaced values from `a` to `b`
inclusive (just `a` when `n = 1`, empty when `n = 0`). -/
def linspace (a b : ℝ) (n : Nat) : List ℝ :=
  (List.range n).map
    (fun (i : ℕ) => if n ≤ 1 then a else a + (i : ℝ) * (b - a) / ((n : ℝ) - 1))

/-- `torch.stack((x, y, z), dim=-1)` for equal-length coordinate lists with
constant depth: the list of field points. -/
def stackPoints (xs ys : List ℝ) (depth : ℝ) : List FieldPoint :=
  List.zipWith (fun a b => ⟨a, b, depth⟩) xs ys

/-- Field points of the strict plotter: x and y from `linspace(0, 1, M)`,
z fixed at `depth`. -/
def strictPoints (M : Nat) (depth : ℝ) : List FieldPoint :=
  stackPoints (linspace 0 1 M) (linspace 0 1 M) depth

/-- `points[i]` in the strict plotter's loop. -/
def strictPt (M : Nat) (depth : ℝ) (i : Nat) : FieldPoint :=
  (strictPoints M depth).getD i ⟨0, 0, 0⟩

/-- Field points of the robust plotter: x and y from `linspace(0, 0.7, M)`. -/
def robustPoints (M : Nat) (depth : ℝ) : List FieldPoint :=
  stackPoints (linspace 0 (0.7) M) (linspace 0 (0.7) M) depth

/-- `points[i]` in the robust plotter's loop. -/
def robustPt (M : Nat) (depth : ℝ) (i : Nat) : FieldPoint :=
  (robustPoints M depth).getD i ⟨0, 0, 0⟩

/-- The tiled grid produced by `make_grid(psfs, nrow, padding, pad_value)`,
recorded with the arguments the code passes (the tiling itself is a
third-party black box). -/
structure GridRec where
  imgs : List Psf
  nrow : Nat
  padding : Nat
  padValue : ℝ

/-- The image file written by `save_image(grid, save_name, normalize=True)`
together with the returned path. -/
structure SaveRec where
  grid : GridRec
  path : String
  normalize : Bool

/-- The strict plotter's loop over field-point indices: request a recentered
PSF with `spp=4096`, post-process it, and let any failure propagate. -/
def runStrict (lens : Lens) (pts : Nat → FieldPoint) (ks : Nat) (ls : Bool) :
    List Nat → Except LensErr (List Psf)
  | [] => Except.ok []
  | i :: rest =>
    match lens (pts i) ks true 4096 with
    | Except.error e => Except.error e
    | Except.ok psf =>
      match runStrict lens pts ks ls rest with
      | Except.error e => Except.error e
      | Except.ok tailPsfs => Except.ok (postProcess ls EPSILON psf :: tailPsfs)

/-- `fixed_psf_radial` from `fix_psf_radial.py`: on success the grid of all
`M` post-processed PSFs is saved to `save_name` (normalized) and the path is
returned; any lens failure propagates and nothing is saved. -/
def fixed_psf_radial (lens : Lens) (M : Nat) (depth : ℝ) (ks : Nat)
    (ls : Bool) (saveName : String) : Except LensErr SaveRec :=
  match runStrict lens (strictPt M depth) ks ls (List.range M) with
  | Except.ok psfs => Except.ok ⟨⟨psfs, M, 1, 0⟩, saveName, true⟩
  | Except.error e => Except.error e

/-- The isotropic Gaussian placeholder grid of `fix_psf_radial_robust.py`
before normalization: entry at row `r`, column `c` is
`exp(-(((c - center)^2 + (r - center)^2) / (2 * sigma^2)))` with
`center = ks // 2` (meshgrid with `indexing='xy'` makes the first
coordinate the column index). -/
def gaussianRaw (ks : Nat) (sigma : ℝ) : List (List ℝ) :=
  (List.range ks).map (fun (r : ℕ) => (List.range ks).map (fun (c : ℕ) =>
    Real.exp (-((((c : ℝ) - ((ks / 2 : Nat) : ℝ)) ^ 2 +
      ((r : ℝ) - ((ks / 2 : Nat) : ℝ)) ^ 2) / (2 * sigma ^ 2)))))

/-- Sum of all entries of one channel. -/
def chanSum (ch : List (List ℝ)) : ℝ := (ch.map List.sum).sum

/-- The synthesized placeholder PSF for field index `i`: the Gaussian grid
with `sigma = 2.0 + i * 1.5`, normalized to sum to 1, stacked identically
into three color channels. -/
def gaussianPlaceholder (ks i : Nat) : Psf :=
  let g := gaussianRaw ks (2 + 3 / 2 * (i : ℝ))
  let gn := g.map (fun row => row.map (fun v => v / chanSum g))
  [gn, gn, gn]

/-- Tiers 2 and 3 of the robust fallback: retry without recentering, and on
any failure of the retry synthesize the Gaussian placeholder. -/
def tier2Psf (lens : Lens) (pt : FieldPoint) (ks i : Nat) : Psf :=
  match lens pt ks false 4096 with
  | Except.ok p => p
  | Except.error _ => gaussianPlaceholder ks i

/-- The robust plotter's loop: try the recentered request first; on an
`AssertionError` fall back to `tier2Psf`; any other exception propagates
and aborts the loop. -/
def runRobust (lens : Lens) (pts : Nat → FieldPoint) (ks : Nat) (ls : Bool) :
    List Nat → Except LensErr (List Psf)
  | [] => Except.ok []
  | i :: rest =>
    match lens (pts i) ks true 4096 with
    | Except.error (LensErr.otherError m) => Except.error (LensErr.otherError m)
    | Except.error LensErr.assertionError =>
      (match runRobust lens pts ks ls rest with
       | Except.error e => Except.error e
       | Except.ok tailPsfs =>
         Except.ok (postProcess ls EPSILON (tier2Psf lens (pts i) ks i) :: tailPsfs))
    | Except.ok psf =>
      (match runRobust lens pts ks ls rest with
       | Except.error e => Except.error e
       | Except.ok tailPsfs => Except.ok (postProcess ls EPSILON psf :: tailPsfs))

/-- `robust_psf_radial` from `fix_psf_radial_robust.py`: field points from
`linspace(0, 0.7, M)`, per-point three-tier fallback, then the same
post-processing, tiling and save as the strict plotter. -/
def robust_psf_radial (lens : Lens) (M : Nat) (depth : ℝ) (ks : Nat)
    (ls : Bool) (saveName : String) : Except LensErr SaveRec :=
  match runRobust lens (robustPt M depth) ks ls (List.range M) with
  | Except.ok psfs => Except.ok ⟨⟨psfs, M, 1, 0⟩, saveName, true⟩
  | Except.error e => Except.error e

theorem runStrict_ok_of_forall (lens : Lens) (pts : Nat → FieldPoint) (ks : Nat)
    (ls : Bool) (l : List Nat)
    (h : ∀ i ∈ l, ∃ p, lens (pts i) ks true 4096 = Except.ok p) :
    ∃ ps, runStrict lens pts ks ls l = Except.ok ps := by
  induction l with
  | nil => exact ⟨[], rfl⟩
  | cons i rest ih =>
    obtain ⟨p, hp⟩ := h i (List.mem_cons_self i rest)
    obtain ⟨ps, hps⟩ := ih (fun j hj => h j (List.mem_cons_of_mem i hj))
    exact ⟨_, by rw [runStrict, hp, hps]⟩

/-- Claim C3: given a lens whose PSF generation always succeeds, the strict
plotter saves an output image and returns the `save_name` it was given;
given a lens that fails on the first field point, the failure propagates
uncaught (the result is that error) and no save record is produced. -/
theorem fixed_psf_radial_strict_behaviour (lens : Lens) (M : Nat) (depth : ℝ)
    (ks : Nat) (ls : Bool) (saveName : String) :
    ((∀ i, i < M → ∃ p, lens (strictPt M depth i) ks true 4096 = Except.ok p) →
      ∃ r, fixed_psf_radial lens M depth ks ls saveName = Except.ok r ∧
        r.path = saveName) ∧
    (∀ e, 1 ≤ M → lens (strictPt M depth 0) ks true 4096 = Except.error e →
      fixed_psf_radial lens M depth ks ls saveName = Except.error e) := by
  constructor
  · intro h
    obtain ⟨ps, hps⟩ := runStrict_ok_of_forall lens (strictPt M depth) ks ls
      (List.range M) (fun i hi => h i (List.mem_range.1 hi))
    exact ⟨_, by rw [fixed_psf_radial, hps], rfl⟩
  · intro e hM hfail
    obtain ⟨n, rfl⟩ : ∃ n, M = n + 1 := ⟨M - 1, by omega⟩
    rw [fixed_psf_radial, List.range_succ_eq_map, runStrict, hfail]

/-- A constant all-ones PSF used by the lens stubs below. -/
def psfOne : Psf := [[[1]], [[1]], [[1]]]

/-- A lens stub that always succeeds. -/
def lensAllOk : Lens := fun _ _ _ _ => Except.ok psfOne

/-- A lens stub that always raises a validity assertion failure. -/
def lensAssert : Lens := fun _ _ _ _ => Except.error LensErr.assertionError

theorem fixed_psf_radial_strict_behaviour_witness :
    (∃ r, fixed_psf_radial lensAllOk 3 1000 101 true "psf_radial.png" = Except.ok r ∧
      r.path = "psf_radial.png") ∧
    fixed_psf_radial lensAssert 3 1000 101 true "psf_radial.png" =
      Except.error LensErr.assertionError :=
  ⟨(fixed_psf_radial_strict_behaviour lensAllOk 3 1000 101 true "psf_radial.png").1
      (fun i _ => ⟨psfOne, rfl⟩),
    (fixed_psf_radial_strict_behaviour lensAssert 3 1000 101 true "psf_radial.png").2
      LensErr.assertionError (by omega) rfl⟩

theorem runStrict_map_of_forall (lens : Lens) (pts : Nat → FieldPoint) (ks : Nat)
    (ls : Bool) (psfOf : Nat → Psf) (l : List Nat)
    (h : ∀ i ∈ l, lens (pts i) ks true 4096 = Except.ok (psfOf i)) :
    runStrict lens pts ks ls l =
      Except.ok (l.map (fun i => postProcess ls EPSILON (psfOf i))) := by
  induction l with
  | nil => rfl
  | cons i rest ih =>
    rw [runStrict, h i (List.mem_cons_self i rest),
      ih (fun j hj => h j (List.mem_cons_of_mem i hj))]
    rfl

/-- Claim C8: the strict plotter builds exactly `M` field points whose x and
y coordinates are evenly spaced over `[0, 1]` and whose z coordinate is
`depth`; for each it requests a recentered RGB PSF with 4096 samples,
divides the PSF by its own maximum (followed by the optional log-scale
step), tiles the `M` results into one grid with `nrow = M`, padding 1 and
black padding value, saves it under `save_name` (normalized) and returns
that path. -/
theorem fixed_psf_radial_full_success (lens : Lens) (M : Nat) (depth : ℝ)
    (ks : Nat) (ls : Bool) (saveName : String) (psfOf : Nat → Psf) (hM : 2 ≤ M)
    (hsucc : ∀ i, i < M → lens (strictPt M depth i) ks true 4096 = Except.ok (psfOf i)) :
    (strictPoints M depth).length = M ∧
    (∀ i, i < M → strictPt M depth i =
      ⟨(i : ℝ) / ((M : ℝ) - 1), (i : ℝ) / ((M : ℝ) - 1), depth⟩) ∧
    fixed_psf_radial lens M depth ks ls saveName =
      Except.ok ⟨⟨(List.range M).map (fun i => postProcess ls EPSILON (psfOf i)), M, 1, 0⟩,
        saveName, true⟩ := by
  have hlin : (linspace 0 1 M).length = M := by simp [linspace]
  have hlinD : ∀ i, i < M → (linspace 0 1 M).getD i 0 = (i : ℝ) / ((M : ℝ) - 1) := by
    intro i hi
    have hl : i < (linspace 0 1 M).length := by omega
    rw [List.getD_eq_getElem _ _ hl]
    unfold linspace
    have hM1 : ¬ (M ≤ 1) := by omega
    simp only [List.getElem_map, List.getElem_range, hM1, if_false]
    rw [sub_zero, mul_one, zero_add]
  have hlen : (strictPoints M depth).length = M := by
    simp [strictPoints, stackPoints, List.length_zipWith, hlin]
  refine ⟨hlen, ?_, ?_⟩
  · intro i hi
    have hil : i < (strictPoints M depth).length := by omega
    rw [strictPt, List.getD_eq_getElem _ _ hil]
    unfold strictPoints stackPoints
    rw [List.getElem_zipWith, ← List.getD_eq_getElem (linspace 0 1 M) 0 (by omega)]
    rw [hlinD i hi]
  · rw [fixed_psf_radial,
      runStrict_map_of_forall lens (strictPt M depth) ks ls psfOf (List.range M)
        (fun i hi => hsucc i (List.mem_range.1 hi))]

theorem fixed_psf_radial_full_success_witness :
    (2 ≤ 2 ∧ (∀ i, i < 2 → lensAllOk (strictPt 2 1000 i) 101 true 4096 =
      Except.ok psfOne)) ∧
    ((strictPoints 2 1000).length = 2 ∧
      (∀ i, i < 2 → strictPt 2 1000 i =
        ⟨(i : ℝ) / ((2 : ℝ) - 1), (i : ℝ) / ((2 : ℝ) - 1), 1000⟩) ∧
      fixed_psf_radial lensAllOk 2 1000 101 true "psf_radial.png" =
        Except.ok ⟨⟨(List.range 2).map (fun _ => postProcess true EPSILON psfOne), 2, 1, 0⟩,
          "psf_radial.png", true⟩) :=
  ⟨⟨by omega, fun i _ => rfl⟩,
    fixed_psf_radial_full_success lensAllOk 2 1000 101 true "psf_radial.png"
      (fun _ => psfOne) (by omega) (fun i _ => rfl)⟩

theorem runRobust_error_after_prefix (lens : Lens) (pts : Nat → FieldPoint)
    (ks : Nat) (ls : Bool) (l1 : List Nat) (i : Nat) (l2 : List Nat) (m : String)
    (hpre : ∀ j ∈ l1, ∀ m2, lens (pts j) ks true 4096 ≠
      Except.error (LensErr.otherError m2))
    (hfail : lens (pts i) ks true 4096 = Except.error (LensErr.otherError m)) :
    runRobust lens pts ks ls (l1 ++ i :: l2) =
      Except.error (LensErr.otherError m) := by
  induction l1 with
  | nil => rw [List.nil_append, runRobust, hfail]
  | cons j rest ih =>
    have hrest := ih (fun k hk m2 => hpre k (List.mem_cons_of_mem j hk) m2)
    rw [List.cons_append]
    rcases hj : lens (pts j) ks true 4096 with e | p
    · rcases e with _ | m2
      · rw [runRobust, hj, hrest]
      · exact absurd hj (hpre j (List.mem_cons_self j rest) m2)
    · rw [runRobust, hj, hrest]

/-- Claim C9: in the robust plotter, a non-assertion exception raised by the
first (recentered) PSF request for a field point propagates uncaught and
aborts the whole call, provided processing reaches that point (no earlier
point raised a non-assertion exception); the no-recenter retry and the
Gaussian placeholder are reserved for assertion failures of the first
attempt. -/
theorem robust_psf_radial_propagates_other (lens : Lens) (M : Nat) (depth : ℝ)
    (ks : Nat) (ls : Bool) (saveName : String) (i : Nat) (m : String)
    (hi : i < M)
    (hearlier : ∀ j, j < i → ∀ m2, lens (robustPt M depth j) ks true 4096 ≠
      Except.error (LensErr.otherError m2))
    (hfail : lens (robustPt M depth i) ks true 4096 =
      Except.error (LensErr.otherError m)) :
    robust_psf_radial lens M depth ks ls saveName =
      Except.error (LensErr.otherError m) := by
  have hsplit : List.range M =
      List.range i ++ i :: ((List.range (M - i - 1)).map (fun k => i + (k + 1))) := by
    have h1 : M = i + (M - i) := by omega
    have h2 : M - i = (M - i - 1) + 1 := by omega
    rw [h1, List.range_add, h2, List.range_succ_eq_map]
    simp [Function.comp]
  rw [robust_psf_radial, hsplit,
    runRobust_error_after_prefix lens (robustPt M depth) ks ls (List.range i) i _ m
      (fun j hj m2 => hearlier j (List.mem_range.1 hj) m2) hfail]

/-- A lens stub that always raises a non-assertion exception. -/
def lensRaises : Lens := fun _ _ _ _ => Except.error (LensErr.otherError "ray trace failed")

theorem robust_psf_radial_propagates_other_witness :
    (0 < 2 ∧ lensRaises (robustPt 2 1000 0) 101 true 4096 =
      Except.error (LensErr.otherError "ray trace failed")) ∧
    robust_psf_radial lensRaises 2 1000 101 true "psf_radial.png" =
      Except.error (LensErr.otherError "ray trace failed") :=
  ⟨⟨by omega, rfl⟩,
    robust_psf_radial_propagates_other lensRaises 2 1000 101 true "psf_radial.png" 0
      "ray trace failed" (by omega) (fun j hj m2 => absurd hj (Nat.not_lt_zero j)) rfl⟩

theorem sum_map_div (l : List ℝ) (s : ℝ) :
    (l.map (fun v => v / s)).sum = l.sum / s := by
  induction l with
  | nil => simp
  | cons x xs ih => simp [ih, add_div]

theorem chanSum_map_div (g : List (List ℝ)) (s : ℝ) :
    chanSum (g.map (fun row => row.map (fun v => v / s))) = chanSum g / s := by
  unfold chanSum
  rw [List.map_map]
  have h1 : (List.sum ∘ fun row : List ℝ => row.map (fun v => v / s)) =
      (fun row : List ℝ => row.sum / s) := funext fun row => sum_map_div row s
  have h2 : g.map (fun row : List ℝ => row.sum / s) =
      (g.map List.sum).map (fun v => v / s) := by rw [List.map_map]; rfl
  rw [h1, h2, sum_map_div]

theorem chanSum_gaussianRaw_pos (ks : Nat) (sigma : ℝ) (hks : 1 ≤ ks) :
    0 < chanSum (gaussianRaw ks sigma) := by
  unfold chanSum
  apply List.sum_pos
  · intro x hx
    obtain ⟨row, hrow, rfl⟩ := List.mem_map.1 hx
    unfold gaussianRaw at hrow
    obtain ⟨r, hr, rfl⟩ := List.mem_map.1 hrow
    apply List.sum_pos
    · intro v hv
      obtain ⟨c, hc, rfl⟩ := List.mem_map.1 hv
      exact Real.exp_pos _
    · apply List.ne_nil_of_length_pos
      simp
      omega
  · apply List.ne_nil_of_length_pos
    simp [gaussianRaw]
    omega

theorem gaussianPlaceholder_spec (ks i : Nat) (hks : 1 ≤ ks) :
    ∃ ch, gaussianPlaceholder ks i = [ch, ch, ch] ∧ chanSum ch = 1 ∧
      ch.length = ks ∧ ∀ row ∈ ch, row.length = ks := by
  unfold gaussianPlaceholder
  refine ⟨_, rfl, ?_, ?_, ?_⟩
  · rw [chanSum_map_div]
    exact div_self (ne_of_gt (chanSum_gaussianRaw_pos ks _ hks))
  · simp [gaussianRaw]
  · intro row hrow
    obtain ⟨row0, hrow0, rfl⟩ := List.mem_map.1 hrow
    unfold gaussianRaw at hrow0
    obtain ⟨r, hr, rfl⟩ := List.mem_map.1 hrow0
    simp

/-- The PSF selected by the fallback chain for one field point, assuming the
first attempt does not raise a non-assertion exception (in that remaining
case the real code aborts instead — claim C9). -/
def fallbackPsf (lens : Lens) (pt : FieldPoint) (ks i : Nat) : Psf :=
  match lens pt ks true 4096 with
  | Except.ok p => p
  | Except.error _ => tier2Psf lens pt ks i

theorem runRobust_ok_of_no_other (lens : Lens) (pts : Nat → FieldPoint)
    (ks : Nat) (ls : Bool) (l : List Nat)
    (h : ∀ i ∈ l, ∀ m, lens (pts i) ks true 4096 ≠
      Except.error (LensErr.otherError m)) :
    runRobust lens pts ks ls l =
      Except.ok (l.map (fun i => postProcess ls EPSILON (fallbackPsf lens (pts i) ks i))) := by
  induction l with
  | nil => rfl
  | cons i rest ih =>
    have hrest := ih (fun j hj m => h j (List.mem_cons_of_mem i hj) m)
    rcases hj : lens (pts i) ks true 4096 with e | p
    · rcases e with _ | m
      · rw [runRobust, hj, hrest]
        simp [fallbackPsf, hj]
      · exact absurd hj (h i (List.mem_cons_self i rest) m)
    · rw [runRobust, hj, hrest]
      simp [fallbackPsf, hj]

theorem getD_range_map_any {α : Type} (g : Nat → α) (d : α) (n i : Nat)
    (h : i < n) : ((List.range n).map g).getD i d = g i := by
  have hl : i < ((List.range n).map g).length := by simpa using h
  rw [List.getD_eq_getElem _ _ hl]
  simp

/-- Claim C1: when no field point's first (recentered) PSF request raises a
non-assertion exception, the robust plotter completes with a grid of all `M`
field points; per point the three-tier fallback applies in order (recentered
request, then no-recenter retry after an assertion failure, then on any
failure of the retry the synthesized Gaussian placeholder), and the
placeholder has three identical `kernel_size × kernel_size` channels each
normalized to sum to 1. -/
theorem robust_psf_radial_three_tier (lens : Lens) (M : Nat) (depth : ℝ)
    (ks : Nat) (ls : Bool) (saveName : String)
    (hno : ∀ i, i < M → ∀ m, lens (robustPt M depth i) ks true 4096 ≠
      Except.error (LensErr.otherError m))
    (hks : 1 ≤ ks) :
    ∃ r, robust_psf_radial lens M depth ks ls saveName = Except.ok r ∧
      r.path = saveName ∧ r.grid.nrow = M ∧ r.grid.padding = 1 ∧
      r.grid.padValue = 0 ∧ r.grid.imgs.length = M ∧
      (∀ i, i < M →
        (∀ p, lens (robustPt M depth i) ks true 4096 = Except.ok p →
          r.grid.imgs.getD i [] = postProcess ls EPSILON p) ∧
        (lens (robustPt M depth i) ks true 4096 =
            Except.error LensErr.assertionError →
          (∀ p, lens (robustPt M depth i) ks false 4096 = Except.ok p →
            r.grid.imgs.getD i [] = postProcess ls EPSILON p) ∧
          (∀ e, lens (robustPt M depth i) ks false 4096 = Except.error e →
            r.grid.imgs.getD i [] =
              postProcess ls EPSILON (gaussianPlaceholder ks i)))) ∧
      (∀ i, ∃ ch, gaussianPlaceholder ks i = [ch, ch, ch] ∧ chanSum ch = 1 ∧
        ch.length = ks ∧ ∀ row ∈ ch, row.length = ks) := by
  have hrun := runRobust_ok_of_no_other lens (robustPt M depth) ks ls (List.range M)
    (fun i hi m => hno i (List.mem_range.1 hi) m)
  refine ⟨⟨⟨(List.range M).map
      (fun i => postProcess ls EPSILON (fallbackPsf lens (robustPt M depth i) ks i)),
      M, 1, 0⟩, saveName, true⟩,
    by rw [robust_psf_radial, hrun], rfl, rfl, rfl, rfl, by simp, ?_,
    fun i => gaussianPlaceholder_spec ks i hks⟩
  intro i hi
  have hget : ((List.range M).map
      (fun i => postProcess ls EPSILON (fallbackPsf lens (robustPt M depth i) ks i))).getD i [] =
      postProcess ls EPSILON (fallbackPsf lens (robustPt M depth i) ks i) :=
    getD_range_map_any _ _ M i hi
  constructor
  · intro p hp
    rw [hget]
    simp [fallbackPsf, hp]
  · intro hassert
    constructor
    · intro p hp2
      rw [hget]
      simp [fallbackPsf, hassert, tier2Psf, hp2]
    · intro e he
      rw [hget]
      simp [fallbackPsf, hassert, tier2Psf, he]

theorem robust_psf_radial_three_tier_witness :
    ((∀ i, i < 2 → ∀ m, lensAssert (robustPt 2 1000 i) 3 true 4096 ≠
        Except.error (LensErr.otherError m)) ∧ 1 ≤ 3) ∧
    (∃ r, robust_psf_radial lensAssert 2 1000 3 false "psf_radial.png" = Except.ok r ∧
      r.path = "psf_radial.png" ∧ r.grid.nrow = 2 ∧ r.grid.padding = 1 ∧
      r.grid.padValue = 0 ∧ r.grid.imgs.length = 2 ∧
      (∀ i, i < 2 →
        (∀ p, lensAssert (robustPt 2 1000 i) 3 true 4096 = Except.ok p →
          r.grid.imgs.getD i [] = postProcess false EPSILON p) ∧
        (lensAssert (robustPt 2 1000 i) 3 true 4096 =
            Except.error LensErr.assertionError →
          (∀ p, lensAssert (robustPt 2 1000 i) 3 false 4096 = Except.ok p →
            r.grid.imgs.getD i [] = postProcess false EPSILON p) ∧
          (∀ e, lensAssert (robustPt 2 1000 i) 3 false 4096 = Except.error e →
            r.grid.imgs.getD i [] =
              postProcess false EPSILON (gaussianPlaceholder 3 i)))) ∧
      (∀ i, ∃ ch, gaussianPlaceholder 3 i = [ch, ch, ch] ∧ chanSum ch = 1 ∧
        ch.length = 3 ∧ ∀ row ∈ ch, row.length = 3)) :=
  ⟨⟨fun i hi m => by simp [lensAssert], by omega⟩,
    robust_psf_radial_three_tier lensAssert 2 1000 3 false "psf_radial.png"
      (fun i hi m => by simp [lensAssert]) (by omega)⟩

theorem foldr_max_mem (xs : List ℝ) (x : ℝ) : List.foldr max x xs ∈ x :: xs := by
  induction xs with
  | nil => simp
  | cons y ys ih =>
    simp only [List.foldr]
    rcases le_total y (List.foldr max x ys) with h | h
    · rw [max_eq_right h]
      rcases List.mem_cons.1 ih with h1 | h1
      · simp [h1]
      · simp [List.mem_cons_of_mem, h1]
    · rw [max_eq_left h]
      simp

theorem le_foldr_max (xs : List ℝ) (x z : ℝ) (h : z ∈ x :: xs) :
    z ≤ List.foldr max x xs := by
  induction xs with
  | nil => simp at h; simp [h]
  | cons y ys ih =>
    simp only [List.foldr]
    rcases List.mem_cons.1 h with h1 | h1
    · exact le_trans (ih (by simp [h1])) (le_max_right y _)
    · rcases List.mem_cons.1 h1 with h2 | h2
      · simp [h2]
      · exact le_trans (ih (List.mem_cons_of_mem x h2)) (le_max_right y _)

theorem foldr_min_mem (xs : List ℝ) (x : ℝ) : List.foldr min x xs ∈ x :: xs := by
  induction xs with
  | nil => simp
  | cons y ys ih =>
    simp only [List.foldr]
    rcases le_total y (List.foldr min x ys) with h | h
    · rw [min_eq_left h]
      simp
    · rw [min_eq_right h]
      rcases List.mem_cons.1 ih with h1 | h1
      · simp [h1]
      · simp [List.mem_cons_of_mem, h1]

theorem foldr_min_le (xs : List ℝ) (x z : ℝ) (h : z ∈ x :: xs) :
    List.foldr min x xs ≤ z := by
  induction xs with
  | nil => simp at h; simp [h]
  | cons y ys ih =>
    simp only [List.foldr]
    rcases List.mem_cons.1 h with h1 | h1
    · exact le_trans (min_le_right y _) (ih (by simp [h1]))
    · rcases List.mem_cons.1 h1 with h2 | h2
      · simp [h2]
      · exact le_trans (min_le_right y _) (ih (List.mem_cons_of_mem x h2))

theorem lmax_mem (l : List ℝ) (h : l ≠ []) : lmax l ∈ l := by
  cases l with
  | nil => exact absurd rfl h
  | cons x xs => exact foldr_max_mem xs x

theorem le_lmax (l : List ℝ) (z : ℝ) (h : z ∈ l) : z ≤ lmax l := by
  cases l with
  | nil => cases h
  | cons x xs => exact le_foldr_max xs x z h

theorem lmax_le (l : List ℝ) (b : ℝ) (hne : l ≠ []) (h : ∀ z ∈ l, z ≤ b) :
    lmax l ≤ b := h _ (lmax_mem l hne)

theorem lmin_mem (l : List ℝ) (h : l ≠ []) : lmin l ∈ l := by
  cases l with
  | nil => exact absurd rfl h
  | cons x xs => exact foldr_min_mem xs x

theorem lmin_le (l : List ℝ) (z : ℝ) (h : z ∈ l) : lmin l ≤ z := by
  cases l with
  | nil => cases h
  | cons x xs => exact foldr_min_le xs x z h

theorem le_lmin (l : List ℝ) (b : ℝ) (hne : l ≠ []) (h : ∀ z ∈ l, b ≤ z) :
    b ≤ lmin l := h _ (lmin_mem l hne)

theorem lmax_map (f : ℝ → ℝ) (l : List ℝ) (hne : l ≠ [])
    (hmono : ∀ a ∈ l, ∀ b ∈ l, a ≤ b → f a ≤ f b) :
    lmax (l.map f) = f (lmax l) := by
  apply le_antisymm
  · apply lmax_le _ _ (by simpa using hne)
    intro z hz
    obtain ⟨a, ha, rfl⟩ := List.mem_map.1 hz
    exact hmono a ha (lmax l) (lmax_mem l hne) (le_lmax l a ha)
  · exact le_lmax _ _ (List.mem_map_of_mem f (lmax_mem l hne))

theorem lmin_map (f : ℝ → ℝ) (l : List ℝ) (hne : l ≠ [])
    (hmono : ∀ a ∈ l, ∀ b ∈ l, a ≤ b → f a ≤ f b) :
    lmin (l.map f) = f (lmin l) := by
  apply le_antisymm
  · exact lmin_le _ _ (List.mem_map_of_mem f (lmin_mem l hne))
  · apply le_lmin _ _ (by simpa using hne)
    intro z hz
    obtain ⟨a, ha, rfl⟩ := List.mem_map.1 hz
    exact hmono (lmin l) (lmin_mem l hne) a ha (lmin_le l a ha)

theorem flatPsf_pmap (f : ℝ → ℝ) (p : Psf) :
    flatPsf (pmap f p) = (flatPsf p).map f := by
  unfold flatPsf pmap
  rw [← List.map_flatten, ← List.map_flatten]

/-- Claim C6 counterexample: on a constant PSF (every entry 1, so the
maximum is positive), the log of all entries is the same value, the min-max
rescale divides by zero, and the result's maximum is 0, not 1. -/
def psfConstOne : Psf := [[[1]], [[1]], [[1]]]

/-- Claim C6 is refuted at `psfConstOne`: its maximum is positive, yet the
log-scale step's output has maximum 0 rather than 1. -/
theorem logScaleStep_const_fails :
    0 < pmax psfConstOne ∧ pmax (logScaleStep EPSILON psfConstOne) ≠ 1 := by
  constructor
  · show (0 : ℝ) < lmax [1, 1, 1]
    show (0 : ℝ) < max 1 (max 1 1)
    simp
  · have hmin1 : pmin (pmap (fun v => Real.log (v + EPSILON)) psfConstOne) =
        Real.log (1 + EPSILON) := by
      show List.foldr min (Real.log (1 + EPSILON))
        [Real.log (1 + EPSILON), Real.log (1 + EPSILON)] = Real.log (1 + EPSILON)
      simp
    have hmax1 : pmax (pmap (fun v => Real.log (v + EPSILON)) psfConstOne) =
        Real.log (1 + EPSILON) := by
      show List.foldr max (Real.log (1 + EPSILON))
        [Real.log (1 + EPSILON), Real.log (1 + EPSILON)] = Real.log (1 + EPSILON)
      simp
    have hflat : pmax (logScaleStep EPSILON psfConstOne) =
        (Real.log (1 + EPSILON) -
            pmin (pmap (fun v => Real.log (v + EPSILON)) psfConstOne)) /
          (pmax (pmap (fun v => Real.log (v + EPSILON)) psfConstOne) -
            pmin (pmap (fun v => Real.log (v + EPSILON)) psfConstOne)) := by
      show List.foldr max _ [_, _] = _
      simp
    rw [hflat, hmin1, hmax1, sub_self, zero_div]
    exact zero_ne_one

/-- Claim C6, amended: in either PSF plotter, applying the log-scale step
(log of PSF plus EPSILON followed by min-max rescaling, any positive
EPSILON) to a PSF with nonnegative entries whose maximum is positive and
strictly greater than its minimum yields an output whose minimum element is
0 and whose maximum element is 1. -/
theorem logScaleStep_minmax (eps : ℝ) (p : Psf) (heps : 0 < eps)
    (hne : flatPsf p ≠ []) (hnn : ∀ v ∈ flatPsf p, 0 ≤ v)
    (hlt : pmin p < pmax p) (hposmax : 0 < pmax p) :
    pmin (logScaleStep eps p) = 0 ∧ pmax (logScaleStep eps p) = 1 := by
  have hmono : ∀ a ∈ flatPsf p, ∀ b ∈ flatPsf p, a ≤ b →
      Real.log (a + eps) ≤ Real.log (b + eps) := by
    intro a ha b hb hab
    have h0 : 0 < a + eps := by have := hnn a ha; linarith
    exact Real.log_le_log h0 (by linarith)
  have hq : flatPsf (pmap (fun v => Real.log (v + eps)) p) =
      (flatPsf p).map (fun v => Real.log (v + eps)) := flatPsf_pmap _ p
  have hqne : flatPsf (pmap (fun v => Real.log (v + eps)) p) ≠ [] := by
    rw [hq]; simpa using hne
  have hqmax : pmax (pmap (fun v => Real.log (v + eps)) p) =
      Real.log (pmax p + eps) := by
    show lmax _ = _
    rw [hq, lmax_map _ _ hne hmono]
    rfl
  have hqmin : pmin (pmap (fun v => Real.log (v + eps)) p) =
      Real.log (pmin p + eps) := by
    show lmin _ = _
    rw [hq, lmin_map _ _ hne hmono]
    rfl
  have hminpos : 0 < pmin p + eps := by
    have := hnn (pmin p) (lmin_mem _ hne)
    linarith
  have hmlt : pmin (pmap (fun v => Real.log (v + eps)) p) <
      pmax (pmap (fun v => Real.log (v + eps)) p) := by
    rw [hqmin, hqmax]
    exact Real.log_lt_log hminpos (by linarith)
  set q := pmap (fun v => Real.log (v + eps)) p with hqdef
  set m := pmin q with hmdef
  set Mx := pmax q with hMxdef
  have hden : 0 < Mx - m := sub_pos.2 hmlt
  have hgmono : ∀ a ∈ flatPsf q, ∀ b ∈ flatPsf q, a ≤ b →
      (a - m) / (Mx - m) ≤ (b - m) / (Mx - m) := by
    intro a _ b _ hab
    exact div_le_div_of_nonneg_right (by linarith) (le_of_lt hden)
  have hr : flatPsf (pmap (fun v => (v - m) / (Mx - m)) q) =
      (flatPsf q).map (fun v => (v - m) / (Mx - m)) := flatPsf_pmap _ q
  have hres : logScaleStep eps p = pmap (fun v => (v - m) / (Mx - m)) q := rfl
  constructor
  · show lmin (flatPsf (logScaleStep eps p)) = 0
    rw [hres, hr, lmin_map _ _ hqne hgmono]
    show (m - m) / (Mx - m) = 0
    rw [sub_self, zero_div]
  · show lmax (flatPsf (logScaleStep eps p)) = 1
    rw [hres, hr, lmax_map _ _ hqne hgmono]
    show (Mx - m) / (Mx - m) = 1
    exact div_self (ne_of_gt hden)

/-- A small nonconstant PSF with entries 0 and 1. -/
def psfZeroOne : Psf := [[[0, 1]]]

theorem logScaleStep_minmax_witness :
    ((0 : ℝ) < 1 ∧ flatPsf psfZeroOne ≠ [] ∧ (∀ v ∈ flatPsf psfZeroOne, 0 ≤ v) ∧
      pmin psfZeroOne < pmax psfZeroOne ∧ 0 < pmax psfZeroOne) ∧
    (pmin (logScaleStep 1 psfZeroOne) = 0 ∧ pmax (logScaleStep 1 psfZeroOne) = 1) := by
  have h1 : flatPsf psfZeroOne ≠ [] := by
    show ([0, 1] : List ℝ) ≠ []
    simp
  have h2 : ∀ v ∈ flatPsf psfZeroOne, (0 : ℝ) ≤ v := by
    intro v hv
    have : v ∈ ([0, 1] : List ℝ) := hv
    rcases List.mem_cons.1 this with rfl | h3
    · exact le_refl 0
    · rcases List.mem_cons.1 h3 with rfl | h4
      · exact zero_le_one
      · cases h4
  have h3 : pmin psfZeroOne < pmax psfZeroOne := by
    show min (1 : ℝ) 0 < max 1 0
    rw [min_eq_right zero_le_one, max_eq_left zero_le_one]
    exact one_pos
  have h4 : (0 : ℝ) < pmax psfZeroOne := by
    show (0 : ℝ) < max 1 0
    rw [max_eq_left zero_le_one]
    exact one_pos
  exact ⟨⟨one_pos, h1, h2, h3, h4⟩,
    logScaleStep_minmax 1 psfZeroOne one_pos h1 h2 h3 h4⟩

end
